import Mathlib

deriving instance DecidableEq for Except

/-!
Verification of the stock-data caching utility.

The development shallowly embeds the repository's Python modules:

* `src/utils/stock_utils.py` — stock-code normalization (`convert_to_jq_code`);
* `src/save_stocks_data.py` — the cached download coordinator
  (`download_stock_data_with_cache`) and its merge of cached and fresh rows;
* `src/data_fetcher/jq_fetcher.py` — the retrying fetcher (`get_stock_data`);
* `src/stock_cache.py` — the batch driver (`download_all_stocks`,
  `download_single_stock`);
* `src/storage/storage_manager.py` — the storage adapter (`get_file_path`,
  `save_data`, `load_data`, `file_exists`).

Strings are modelled as `List Char`, calendar dates either as abstract `Nat`
keys (where only their ordering matters) or as year/month/day triples (where
the textual `YYYY-MM-DD` round trip matters), numeric cells as `Int`
(floating-point formatting is out of scope), and the file system as explicit
association lists threaded through the functions that touch it.
-/

namespace StockUtils

/-- Whitespace characters removed by Python's `str.strip()`. -/
def isPySpace (c : Char) : Bool :=
  c = ' ' || c = '\t' || c = '\n' || c = '\r' || c = '\x0b' || c = '\x0c'

/-- Model of Python `str.strip()`: drop leading and trailing whitespace. -/
def pyStrip (l : List Char) : List Char :=
  ((l.dropWhile isPySpace).reverse.dropWhile isPySpace).reverse

/-- Error raised by `convert_to_jq_code` (`ValueError` in the source). -/
inductive JQError where
  | invalidFormat (code : List Char)
deriving DecidableEq, Repr

/-- Embedding of `convert_to_jq_code` from `src/utils/stock_utils.py`:
strip the raw code, pass through already-qualified codes (containing `.`),
otherwise map exchange prefixes to suffixes, first matching rule winning. -/
def convert_to_jq_code (stock_code : List Char) : Except JQError (List Char) :=
  let code := pyStrip stock_code
  if '.' ∈ code then Except.ok code
  else if List.isPrefixOf "60".toList code || List.isPrefixOf "900".toList code then
    Except.ok (code ++ ".XSHG".toList)
  else if List.isPrefixOf "00".toList code || List.isPrefixOf "30".toList code
      || List.isPrefixOf "200".toList code then
    Except.ok (code ++ ".XSHE".toList)
  else if List.isPrefixOf "688".toList code then
    Except.ok (code ++ ".XSHG".toList)
  else if List.isPrefixOf "8".toList code then
    Except.ok (code ++ ".BJ".toList)
  else
    Except.error (JQError.invalidFormat code)

end StockUtils

namespace Series

/-- One row of a price series: a date key plus the five OHLCV cells.  The date
type is a parameter: the coordinator compares dates only through their order
(modelled with `Nat`), while the storage adapter also serializes them
(modelled with a year/month/day triple). -/
structure Row (δ : Type) where
  date : δ
  open_ : Int
  high : Int
  low : Int
  close : Int
  volume : Int
deriving DecidableEq, Repr

/-- Date column of a series (the pandas index). -/
def dates {δ : Type} (s : List (Row δ)) : List δ := s.map Row.date

/-- Embedding of `combined_df[~combined_df.index.duplicated(keep='last')]`:
keep a row exactly when no later row carries the same date. -/
def dropDupKeepLast {δ : Type} [DecidableEq δ] : List (Row δ) → List (Row δ)
  | [] => []
  | r :: rs => if r.date ∈ dates rs then dropDupKeepLast rs else r :: dropDupKeepLast rs

/-- Comparison used to sort a series by its date index. -/
def dateLE (a b : Row Nat) : Prop := a.date ≤ b.date

instance : DecidableRel dateLE := fun a b => Nat.decLe a.date b.date

instance : IsTotal (Row Nat) dateLE := ⟨fun a b => Nat.le_total a.date b.date⟩

instance : IsTrans (Row Nat) dateLE := ⟨fun _ _ _ => Nat.le_trans⟩

/-- Embedding of `combined_df.sort_index()`: sort rows ascending by date. -/
def sortByDate (s : List (Row Nat)) : List (Row Nat) := List.insertionSort dateLE s

/-- Embedding of the merge in `download_stock_data_with_cache`
(`src/save_stocks_data.py`): concatenate cached and new rows, drop duplicated
dates keeping the last occurrence, then sort by date. -/
def mergeSeries (cached newData : List (Row Nat)) : List (Row Nat) :=
  sortByDate (dropDupKeepLast (cached ++ newData))

end Series

namespace SaveStocks

open Series

/-- What the coordinator finds when it looks for a cache file: no file, a file
that fails to read or parse, or a parsed series. -/
inductive CacheState where
  | absent
  | corrupt
  | valid (rows : List (Row Nat))
deriving DecidableEq, Repr

/-- Observable outcome of one `download_stock_data_with_cache` run: the
returned series, the `get_price` calls made (start and end date of each), and
the series written to the cache file, if any. -/
structure DownloadResult where
  series : List (Row Nat)
  fetchCalls : List (Nat × Nat)
  saved : Option (List (Row Nat))
deriving DecidableEq, Repr

/-- Embedding of the full-download tail of `download_stock_data_with_cache`:
fetch the whole `[listing_date, latest_date]` range and save it when
non-empty. -/
def fullDownload (listingDate latestDate : Nat)
    (fetch : Nat → Nat → List (Row Nat)) : DownloadResult :=
  let df := fetch listingDate latestDate
  { series := df, fetchCalls := [(listingDate, latestDate)],
    saved := if df = [] then none else some df }

/-- Embedding of `download_stock_data_with_cache` (`src/save_stocks_data.py`).
A readable non-empty cache is returned untouched when fresh, extended
incrementally when stale (fetching from the cached last date inclusive);
an absent, corrupt or empty cache triggers a full download. -/
def download_stock_data_with_cache (cache : CacheState) (listingDate latestDate : Nat)
    (fetch : Nat → Nat → List (Row Nat)) : DownloadResult :=
  match cache with
  | CacheState.valid rows =>
      match rows.getLast? with
      | some lastRow =>
          if latestDate ≤ lastRow.date then
            { series := rows, fetchCalls := [], saved := none }
          else
            let newData := fetch lastRow.date latestDate
            let combined := mergeSeries rows newData
            { series := combined, fetchCalls := [(lastRow.date, latestDate)],
              saved := some combined }
      | none => fullDownload listingDate latestDate fetch
  | CacheState.corrupt => fullDownload listingDate latestDate fetch
  | CacheState.absent => fullDownload listingDate latestDate fetch

end SaveStocks

namespace JQFetcher

/-- Trace of one `JQFetcher.get_stock_data` call: the data if any attempt
succeeded, whether the final exception was re-raised, how many attempts ran,
and the delays slept between attempts. -/
structure FetchTrace (α : Type) where
  result : Option α
  raised : Bool
  attemptsMade : Nat
  sleeps : List Nat
deriving DecidableEq, Repr

/-- Embedding of the retry loop of `JQFetcher.get_stock_data`
(`src/data_fetcher/jq_fetcher.py`).  `att i` is the outcome of attempt `i`
(`none` models the vendor call raising).  On failure the loop sleeps
`retryDelay` and retries while attempts remain, re-raising on the last one;
an exhausted `range` (zero attempts allowed) falls through returning
nothing. -/
def fetchAttempts {α : Type} (att : Nat → Option α) (retryDelay : Nat) :
    Nat → Nat → FetchTrace α
  | _, 0 => ⟨none, false, 0, []⟩
  | i, remaining + 1 =>
      match att i with
      | some d => ⟨some d, false, 1, []⟩
      | none =>
          if remaining = 0 then ⟨none, true, 1, []⟩
          else
            let t := fetchAttempts att retryDelay (i + 1) remaining
            ⟨t.result, t.raised, t.attemptsMade + 1, retryDelay :: t.sleeps⟩

/-- Embedding of `JQFetcher.get_stock_data`, starting at attempt `0` with
`maxRetry` attempts allowed. -/
def get_stock_data {α : Type} (maxRetry retryDelay : Nat)
    (att : Nat → Option α) : FetchTrace α :=
  fetchAttempts att retryDelay 0 maxRetry

/-- Embedding of `JQFetcher.validate_date_range` on abstract date keys: the
range is valid when the start is not after the end (the format check cannot
fail on `Nat` dates and the out-of-range case only warns). -/
def validate_date_range (startDate endDate : Nat) : Bool := startDate ≤ endDate

end JQFetcher

namespace StockCache

open Series JQFetcher

/-- Download mode decided per identifier (`determine_download_mode`). -/
inductive Mode where
  | full
  | incremental
  | upToDate
deriving DecidableEq, Repr

/-- Cache files on disk, keyed by identifier. -/
abbrev CacheFiles := List (String × List (Row Nat))

/-- Writing a series to an identifier's cache file. -/
def setFile (p : String) (v : List (Row Nat)) : CacheFiles → CacheFiles
  | [] => [(p, v)]
  | (q, w) :: rest => if q = p then (p, v) :: rest else (q, w) :: setFile p v rest

/-- Modelled from the spec: `CacheManager.merge_data` lives in
`cache/cache_manager.py`, which is not present under `src/`.  The spec's merge
algorithm concatenates cached rows with newly fetched rows, deduplicates by
date keeping the later-fetched row, and sorts ascending by date; when the
fetch produced no table there is nothing to merge and, as no partial state may
be written on a failed fetch, no series is produced. -/
def merge_data (old newData : Option (List (Row Nat))) : Option (List (Row Nat)) :=
  match old, newData with
  | _, none => none
  | none, some n => some n
  | some o, some n => some (mergeSeries o n)

/-- Embedding of `StockCache._fetch_stock_data`: validate the range, run the
retrying fetcher, and swallow any exception into `none`. -/
def fetchStockData (maxRetry retryDelay startDate endDate : Nat)
    (att : Nat → Option (List (Row Nat))) : Option (List (Row Nat)) :=
  if validate_date_range startDate endDate then
    (get_stock_data maxRetry retryDelay att).result
  else none

/-- Embedding of `StockCache.download_single_stock` (`src/stock_cache.py`).
The download mode, the previously cached series and the incremental sub-range
are inputs (they come from `CacheManager`, outside `src/`).  A fresh cache
reports success without fetching; otherwise the data is fetched (merged with
the cached rows in incremental mode) and saved when non-empty; a fetch that
produced nothing reports failure and leaves the files untouched. -/
def download_single_stock (maxRetry retryDelay : Nat)
    (att : Nat → Option (List (Row Nat))) (mode : Mode)
    (cached : Option (List (Row Nat))) (startDate endDate incStart incEnd : Nat)
    (s : String) (fs : CacheFiles) : Bool × CacheFiles :=
  match mode with
  | Mode.upToDate => (true, fs)
  | Mode.full =>
      match fetchStockData maxRetry retryDelay startDate endDate att with
      | none => (false, fs)
      | some data => if data = [] then (false, fs) else (true, setFile s data fs)
  | Mode.incremental =>
      let newData := fetchStockData maxRetry retryDelay incStart incEnd att
      match merge_data cached newData with
      | none => (false, fs)
      | some data => if data = [] then (false, fs) else (true, setFile s data fs)

/-- Embedding of the loop of `StockCache.download_all_stocks`: run the
per-identifier step over the universe in order, recording each identifier's
boolean outcome and threading the file state. -/
def download_all_stocks (step : String → CacheFiles → Bool × CacheFiles) :
    List String → CacheFiles → List (String × Bool) × CacheFiles
  | [], fs => ([], fs)
  | s :: rest, fs =>
      let r := step s fs
      let tail := download_all_stocks step rest r.2
      ((s, r.1) :: tail.1, tail.2)

end StockCache

namespace Storage

open Series

/-- Calendar date as stored in the CSV date column. -/
structure Date where
  year : Nat
  month : Nat
  day : Nat
deriving DecidableEq, Repr

/-- Little-endian base-10 digits computed with explicit fuel so that the
definition is structurally recursive. -/
def digitsRevAux : Nat → Nat → List Nat
  | _, 0 => []
  | 0, _ + 1 => []
  | fuel + 1, n + 1 => (n + 1) % 10 :: digitsRevAux fuel ((n + 1) / 10)

/-- Little-endian base-10 digits of `n` (empty for `0`). -/
def digitsRev (n : Nat) : List Nat := digitsRevAux n n

/-- Decimal digit rendered as a character. -/
def digitChar : Nat → Char
  | 0 => '0'
  | 1 => '1'
  | 2 => '2'
  | 3 => '3'
  | 4 => '4'
  | 5 => '5'
  | 6 => '6'
  | 7 => '7'
  | 8 => '8'
  | _ => '9'

/-- Character interpreted as a decimal digit. -/
def charDigit (c : Char) : Nat := c.toNat - 48

/-- Whether a character is a decimal digit. -/
def isDigitCh (c : Char) : Bool := 48 ≤ c.toNat && c.toNat ≤ 57

/-- Decimal rendering of a natural number, most significant digit first. -/
def renderNat (n : Nat) : List Char :=
  if n = 0 then ['0'] else (digitsRev n).reverse.map digitChar

/-- Decimal rendering left-padded with zeros to width `w` (as `strftime`
pads the year to four digits and month and day to two). -/
def renderNatPad (w n : Nat) : List Char :=
  List.replicate (w - (renderNat n).length) '0' ++ renderNat n

/-- Decimal rendering of an integer cell. -/
def renderInt (i : Int) : List Char :=
  if i < 0 then '-' :: renderNat i.natAbs else renderNat i.natAbs

/-- Parse a non-empty all-digit string as a natural number. -/
def parseNat (cs : List Char) : Option Nat :=
  if cs ≠ [] ∧ cs.all isDigitCh then
    some (Nat.ofDigits 10 ((cs.map charDigit).reverse))
  else none

/-- Parse an optionally `-`-signed decimal integer cell. -/
def parseInt : List Char → Option Int
  | [] => none
  | c :: rest =>
      if c = '-' then (parseNat rest).map (fun n => -(n : Int))
      else (parseNat (c :: rest)).map (fun n => (n : Int))

/-- Date rendered as `YYYY-MM-DD`. -/
def renderDate (d : Date) : List Char :=
  List.intercalate ['-'] [renderNatPad 4 d.year, renderNatPad 2 d.month, renderNatPad 2 d.day]

/-- Parse a `YYYY-MM-DD` date cell. -/
def parseDate (cs : List Char) : Option Date :=
  match cs.splitOn '-' with
  | [y, m, d] =>
      match parseNat y, parseNat m, parseNat d with
      | some a, some b, some c => some ⟨a, b, c⟩
      | _, _, _ => none
  | _ => none

/-- One CSV data line: the date index then the five OHLCV cells. -/
def renderRow (r : Row Date) : List Char :=
  List.intercalate [','] [renderDate r.date, renderInt r.open_, renderInt r.high,
    renderInt r.low, renderInt r.close, renderInt r.volume]

/-- Header line written by `to_csv` for an unnamed date index. -/
def csvHeader : List Char := ",open,high,low,close,volume".toList

/-- Embedding of `DataFrame.to_csv`: header line then one line per row. -/
def renderCSV (rows : List (Row Date)) : List Char :=
  List.intercalate ['\x0a'] (csvHeader :: rows.map renderRow)

/-- Parse one CSV data line. -/
def parseRow (cs : List Char) : Option (Row Date) :=
  match cs.splitOn ',' with
  | [d, o, h, l, c, v] =>
      match parseDate d, parseInt o, parseInt h, parseInt l, parseInt c, parseInt v with
      | some dd, some oo, some hh, some ll, some cc, some vv =>
          some ⟨dd, oo, hh, ll, cc, vv⟩
      | _, _, _, _, _, _ => none
  | _ => none

/-- Parse the data lines one after the other, failing if any line fails. -/
def parseLines : List (List Char) → Option (List (Row Date))
  | [] => some []
  | l :: ls =>
      match parseRow l, parseLines ls with
      | some r, some rs => some (r :: rs)
      | _, _ => none

/-- Embedding of `read_csv(..., index_col=0, parse_dates=True)`: split into
lines, check the header, parse every data line. -/
def parseCSV (cs : List Char) : Option (List (Row Date)) :=
  match cs.splitOn '\x0a' with
  | [] => none
  | hdr :: rest => if hdr = csvHeader then parseLines rest else none

/-- Columnar table as stored by the Parquet writer: one column per field. -/
structure ColumnarTable where
  dateCol : List Date
  openCol : List Int
  highCol : List Int
  lowCol : List Int
  closeCol : List Int
  volumeCol : List Int
deriving DecidableEq, Repr

/-- Embedding of `pyarrow.Table.from_pandas`: project each field column. -/
def toColumnar (rows : List (Row Date)) : ColumnarTable :=
  { dateCol := rows.map Row.date, openCol := rows.map Row.open_,
    highCol := rows.map Row.high, lowCol := rows.map Row.low,
    closeCol := rows.map Row.close, volumeCol := rows.map Row.volume }

/-- Rebuild rows from equally long columns; fails on a ragged table. -/
def zipColumns : List Date → List Int → List Int → List Int → List Int → List Int →
    Option (List (Row Date))
  | [], [], [], [], [], [] => some []
  | d :: ds, o :: os, h :: hs, l :: ls, c :: cs, v :: vs =>
      (zipColumns ds os hs ls cs vs).map (fun rest => ⟨d, o, h, l, c, v⟩ :: rest)
  | _, _, _, _, _, _ => none

/-- Embedding of `pyarrow.parquet.read_table(...).to_pandas()`. -/
def fromColumnar (t : ColumnarTable) : Option (List (Row Date)) :=
  zipColumns t.dateCol t.openCol t.highCol t.lowCol t.closeCol t.volumeCol

/-- Contents of a stored file in either supported format. -/
inductive FileData where
  | csvFile (text : List Char)
  | parquetFile (table : ColumnarTable)
deriving DecidableEq, Repr

/-- On-disk state seen by the storage adapter: the directories that exist and
the files with their contents. -/
structure FSState where
  dirs : List String
  files : List (String × FileData)
deriving DecidableEq, Repr

/-- Configuration of `StorageManager` (`src/storage/storage_manager.py`). -/
structure StorageManager where
  base_path : String
  format : String
  compression : String
deriving DecidableEq, Repr

/-- Embedding of the file-name sanitization `stock_code.replace('.', '_')`. -/
def sanitizeCode (code : String) : String :=
  code.map (fun c => if c = '.' then '_' else c)

/-- Embedding of `os.makedirs(d, exist_ok=True)`. -/
def makedirs (d : String) (fs : FSState) : FSState :=
  { fs with dirs := if d ∈ fs.dirs then fs.dirs else d :: fs.dirs }

/-- Embedding of `StorageManager.get_file_path`: resolve the file path and, if
a non-empty partition directory is given, create that directory. -/
def get_file_path (sm : StorageManager) (stock_code : String)
    (year_dir : Option String) (fs : FSState) : String × FSState :=
  match year_dir with
  | some y =>
      if y ≠ "" then
        let fileDir := sm.base_path ++ "/" ++ y
        (fileDir ++ "/" ++ sanitizeCode stock_code ++ "." ++ sm.format,
          makedirs fileDir fs)
      else
        (sm.base_path ++ "/" ++ sanitizeCode stock_code ++ "." ++ sm.format, fs)
  | none => (sm.base_path ++ "/" ++ sanitizeCode stock_code ++ "." ++ sm.format, fs)

/-- Read a file's contents. -/
def lookupFile (p : String) : List (String × FileData) → Option FileData
  | [] => none
  | (q, v) :: rest => if q = p then some v else lookupFile p rest

/-- Write (or overwrite) a file's contents. -/
def writeFile (p : String) (v : FileData) : List (String × FileData) → List (String × FileData)
  | [] => [(p, v)]
  | (q, w) :: rest => if q = p then (p, v) :: rest else (q, w) :: writeFile p v rest

/-- Serialize a series in the configured format (an unknown format raises). -/
def encodeData (sm : StorageManager) (data : List (Row Date)) : Option FileData :=
  if sm.format = "parquet" then some (FileData.parquetFile (toColumnar data))
  else if sm.format = "csv" then some (FileData.csvFile (renderCSV data))
  else none

/-- Embedding of `StorageManager.save_data`: empty data raises, otherwise the
series is serialized to the resolved path; returns the path and new state, or
`none` when the call raised. -/
def save_data (sm : StorageManager) (data : List (Row Date)) (stock_code : String)
    (year_dir : Option String) (fs : FSState) : Option (String × FSState) :=
  if data = [] then none
  else
    let pf := get_file_path sm stock_code year_dir fs
    match encodeData sm data with
    | none => none
    | some fd => some (pf.1, { pf.2 with files := writeFile pf.1 fd pf.2.files })

/-- Deserialize file contents in the configured format; a format mismatch or
unknown format is a read failure. -/
def decodeData (sm : StorageManager) (fd : FileData) : Option (List (Row Date)) :=
  if sm.format = "parquet" then
    match fd with
    | FileData.parquetFile t => fromColumnar t
    | _ => none
  else if sm.format = "csv" then
    match fd with
    | FileData.csvFile text => parseCSV text
    | _ => none
  else none

/-- Embedding of `StorageManager.load_data`: resolve the path (with its
directory side effect), return `none` for a missing file, otherwise the
decoded series (`none` again if decoding raised). -/
def load_data (sm : StorageManager) (stock_code : String) (year_dir : Option String)
    (fs : FSState) : Option (List (Row Date)) × FSState :=
  let pf := get_file_path sm stock_code year_dir fs
  match lookupFile pf.1 pf.2.files with
  | none => (none, pf.2)
  | some fd => (decodeData sm fd, pf.2)

/-- Embedding of `StorageManager.file_exists`: resolve the path (with its
directory side effect) and test existence. -/
def file_exists (sm : StorageManager) (stock_code : String) (year_dir : Option String)
    (fs : FSState) : Bool × FSState :=
  let pf := get_file_path sm stock_code year_dir fs
  ((lookupFile pf.1 pf.2.files).isSome, pf.2)

end Storage

namespace StockUtils

/-- Dropping a prefix of whitespace leaves a list whose head is not whitespace
unchanged. -/
lemma dropWhile_isPySpace_eq_self (l : List Char)
    (h : ∀ c ∈ l.head?, isPySpace c = false) : l.dropWhile isPySpace = l := by
  cases l with
  | nil => rfl
  | cons a t =>
      have ha : isPySpace a = false := h a rfl
      simp [List.dropWhile_cons, ha]

/-- Stripping leaves a list unchanged when neither end is whitespace. -/
lemma pyStrip_eq_self (l : List Char)
    (hh : ∀ c ∈ l.head?, isPySpace c = false)
    (hl : ∀ c ∈ l.getLast?, isPySpace c = false) : pyStrip l = l := by
  unfold pyStrip
  rw [dropWhile_isPySpace_eq_self l hh]
  rw [dropWhile_isPySpace_eq_self l.reverse (by simpa [List.head?_reverse] using hl)]
  exact l.reverse_reverse

/-- Evaluating the normalizer on an input that stripping leaves unchanged and
that already contains the exchange separator: it passes through. -/
lemma convert_to_jq_code_of_mem_dot (l : List Char)
    (hs : pyStrip l = l) (hd : '.' ∈ l) :
    convert_to_jq_code l = Except.ok l := by
  unfold convert_to_jq_code
  rw [hs, if_pos hd]

/-- A nonempty literal prefix determines the head of the larger list. -/
lemma head_of_isPrefixOf {p c : List Char}
    (hp : List.isPrefixOf p c = true) (hne : p ≠ []) : c.head? = p.head? := by
  rw [ List.isPrefixOf_iff_prefix] at hp
  obtain ⟨t, rfl⟩ := hp
  cases p with
  | nil => exact absurd rfl hne
  | cons a q => rfl

/-- Appending a suffix that contains the separator and ends in a non-space
character to a code starting with a non-space character yields a string the
normalizer passes through unchanged. -/
lemma convert_ok_extend (c sfx : List Char) (a g : Char)
    (hhead : c.head? = some a) (ha : isPySpace a = false)
    (hg : sfx.getLast? = some g) (hgs : isPySpace g = false)
    (hdot : '.' ∈ sfx) :
    convert_to_jq_code (c ++ sfx) = Except.ok (c ++ sfx) := by
  apply convert_to_jq_code_of_mem_dot
  · apply pyStrip_eq_self
    · intro ch hch
      rw [List.head?_append, hhead] at hch
      simp at hch
      exact hch ▸ ha
    · intro ch hch
      rw [List.getLast?_append, hg] at hch
      simp at hch
      exact hch ▸ hgs
  · exact List.mem_append_right _ hdot

/-- C6: `convert_to_jq_code` checks its rules in order with the first match
winning: a stripped input already containing the separator `.` passes through
unchanged; otherwise prefixes `60`/`900` map to the `.XSHG` suffix,
`00`/`30`/`200` to `.XSHE`, `688` to `.XSHG`, `8` to `.BJ`; and an input
matching no rule fails with the invalid-format error. -/
theorem convert_to_jq_code_rules (s : List Char) :
    ('.' ∈ pyStrip s → convert_to_jq_code s = Except.ok (pyStrip s))
    ∧ (pyStrip s = s → '.' ∈ s → convert_to_jq_code s = Except.ok s)
    ∧ ('.' ∉ pyStrip s →
        (List.isPrefixOf "60".toList (pyStrip s)
          || List.isPrefixOf "900".toList (pyStrip s)) = true →
        convert_to_jq_code s = Except.ok (pyStrip s ++ ".XSHG".toList))
    ∧ ('.' ∉ pyStrip s →
        (List.isPrefixOf "60".toList (pyStrip s)
          || List.isPrefixOf "900".toList (pyStrip s)) = false →
        (List.isPrefixOf "00".toList (pyStrip s)
          || List.isPrefixOf "30".toList (pyStrip s)
          || List.isPrefixOf "200".toList (pyStrip s)) = true →
        convert_to_jq_code s = Except.ok (pyStrip s ++ ".XSHE".toList))
    ∧ ('.' ∉ pyStrip s →
        (List.isPrefixOf "60".toList (pyStrip s)
          || List.isPrefixOf "900".toList (pyStrip s)) = false →
        (List.isPrefixOf "00".toList (pyStrip s)
          || List.isPrefixOf "30".toList (pyStrip s)
          || List.isPrefixOf "200".toList (pyStrip s)) = false →
        List.isPrefixOf "688".toList (pyStrip s) = true →
        convert_to_jq_code s = Except.ok (pyStrip s ++ ".XSHG".toList))
    ∧ ('.' ∉ pyStrip s →
        (List.isPrefixOf "60".toList (pyStrip s)
          || List.isPrefixOf "900".toList (pyStrip s)) = false →
        (List.isPrefixOf "00".toList (pyStrip s)
          || List.isPrefixOf "30".toList (pyStrip s)
          || List.isPrefixOf "200".toList (pyStrip s)) = false →
        List.isPrefixOf "688".toList (pyStrip s) = false →
        List.isPrefixOf "8".toList (pyStrip s) = true →
        convert_to_jq_code s = Except.ok (pyStrip s ++ ".BJ".toList))
    ∧ ('.' ∉ pyStrip s →
        (List.isPrefixOf "60".toList (pyStrip s)
          || List.isPrefixOf "900".toList (pyStrip s)) = false →
        (List.isPrefixOf "00".toList (pyStrip s)
          || List.isPrefixOf "30".toList (pyStrip s)
          || List.isPrefixOf "200".toList (pyStrip s)) = false →
        List.isPrefixOf "688".toList (pyStrip s) = false →
        List.isPrefixOf "8".toList (pyStrip s) = false →
        convert_to_jq_code s = Except.error (JQError.invalidFormat (pyStrip s))) := by
  refine ⟨?_, ?_, ?_, ?_, ?_, ?_, ?_⟩ <;> intros <;> simp_all [convert_to_jq_code]

/-- Witness for C6: the spec's own scenario, `'8001'` gets the `.BJ` suffix. -/
theorem convert_to_jq_code_rules_w :
    convert_to_jq_code "8001".toList = Except.ok "8001.BJ".toList := by
  have h := (convert_to_jq_code_rules "8001".toList).2.2.2.2.2.1
      (by decide) (by decide) (by decide) (by decide) (by decide)
  exact h.trans (by decide)

/-- C9: normalization is idempotent on raw identifiers matched by a prefix
rule: the qualified output normalizes to itself unchanged. -/
theorem convert_to_jq_code_idem (s y : List Char)
    (hraw : '.' ∉ pyStrip s)
    (h : convert_to_jq_code s = Except.ok y) :
    convert_to_jq_code y = Except.ok y := by
  unfold convert_to_jq_code at h
  rw [if_neg hraw] at h
  by_cases h1 : (List.isPrefixOf "60".toList (pyStrip s)
      || List.isPrefixOf "900".toList (pyStrip s)) = true
  · rw [if_pos h1] at h
    injection h with h'
    subst h'
    simp only [Bool.or_eq_true] at h1
    rcases h1 with hp | hp
    · exact convert_ok_extend _ _ '6' 'G'
        ((head_of_isPrefixOf hp (by decide)).trans (by decide))
        (by decide) (by decide) (by decide) (by decide)
    · exact convert_ok_extend _ _ '9' 'G'
        ((head_of_isPrefixOf hp (by decide)).trans (by decide))
        (by decide) (by decide) (by decide) (by decide)
  · rw [if_neg h1] at h
    by_cases h2 : (List.isPrefixOf "00".toList (pyStrip s)
        || List.isPrefixOf "30".toList (pyStrip s)
        || List.isPrefixOf "200".toList (pyStrip s)) = true
    · rw [if_pos h2] at h
      injection h with h'
      subst h'
      simp only [Bool.or_eq_true] at h2
      rcases h2 with (hp | hp) | hp
      · exact convert_ok_extend _ _ '0' 'E'
          ((head_of_isPrefixOf hp (by decide)).trans (by decide))
          (by decide) (by decide) (by decide) (by decide)
      · exact convert_ok_extend _ _ '3' 'E'
          ((head_of_isPrefixOf hp (by decide)).trans (by decide))
          (by decide) (by decide) (by decide) (by decide)
      · exact convert_ok_extend _ _ '2' 'E'
          ((head_of_isPrefixOf hp (by decide)).trans (by decide))
          (by decide) (by decide) (by decide) (by decide)
    · rw [if_neg h2] at h
      by_cases h3 : List.isPrefixOf "688".toList (pyStrip s) = true
      · rw [if_pos h3] at h
        injection h with h'
        subst h'
        exact convert_ok_extend _ _ '6' 'G'
          ((head_of_isPrefixOf h3 (by decide)).trans (by decide))
          (by decide) (by decide) (by decide) (by decide)
      · rw [if_neg h3] at h
        by_cases h4 : List.isPrefixOf "8".toList (pyStrip s) = true
        · rw [if_pos h4] at h
          injection h with h'
          subst h'
          exact convert_ok_extend _ _ '8' 'J'
            ((head_of_isPrefixOf h4 (by decide)).trans (by decide))
            (by decide) (by decide) (by decide) (by decide)
        · rw [if_neg h4] at h
          exact absurd h (by simp)

/-- Witness for C9: normalizing `'601888'` gives `'601888.XSHG'`, which
normalizes to itself. -/
theorem convert_to_jq_code_idem_w :
    convert_to_jq_code "601888.XSHG".toList = Except.ok "601888.XSHG".toList :=
  convert_to_jq_code_idem "601888".toList "601888.XSHG".toList (by decide) (by decide)

end StockUtils

namespace Series

/-- Unfolding the date column of a non-empty series. -/
lemma dates_cons {δ : Type} (r : Row δ) (l : List (Row δ)) :
    dates (r :: l) = r.date :: dates l := rfl

/-- Dates surviving the keep-last deduplication were already present. -/
lemma mem_dates_dropDupKeepLast {δ : Type} [DecidableEq δ] {x : δ} {l : List (Row δ)}
    (h : x ∈ dates (dropDupKeepLast l)) : x ∈ dates l := by
  induction l with
  | nil => exact h
  | cons r rs ih =>
      rw [dropDupKeepLast] at h
      rw [dates_cons]
      by_cases hd : r.date ∈ dates rs
      · rw [if_pos hd] at h
        exact List.mem_cons_of_mem _ (ih h)
      · rw [if_neg hd, dates_cons] at h
        rcases List.mem_cons.mp h with h' | h'
        · exact h' ▸ List.mem_cons_self _ _
        · exact List.mem_cons_of_mem _ (ih h')

/-- The keep-last deduplication leaves pairwise distinct dates. -/
lemma nodup_dates_dropDupKeepLast {δ : Type} [DecidableEq δ] (l : List (Row δ)) :
    (dates (dropDupKeepLast l)).Nodup := by
  induction l with
  | nil => exact List.nodup_nil
  | cons r rs ih =>
      rw [dropDupKeepLast]
      by_cases hd : r.date ∈ dates rs
      · rw [if_pos hd]
        exact ih
      · rw [if_neg hd, dates_cons]
        have hnotin : r.date ∉ dates (dropDupKeepLast rs) :=
          fun hc => hd (mem_dates_dropDupKeepLast hc)
        exact List.nodup_cons.mpr ⟨hnotin, ih⟩

/-- A row whose date is unique in its list survives the keep-last
deduplication. -/
lemma mem_dropDupKeepLast_of_nodup {δ : Type} [DecidableEq δ] {r : Row δ} {l : List (Row δ)}
    (hr : r ∈ l) (hnd : (dates l).Nodup) : r ∈ dropDupKeepLast l := by
  induction l with
  | nil => exact absurd hr (List.not_mem_nil r)
  | cons a t ih =>
      rw [dates_cons] at hnd
      have hnd' := List.nodup_cons.mp hnd
      rw [dropDupKeepLast, if_neg hnd'.1]
      rcases List.mem_cons.mp hr with h' | h'
      · exact h' ▸ List.mem_cons_self _ _
      · exact List.mem_cons_of_mem _ (ih h' hnd'.2)

/-- A row of the later operand whose date is unique there survives the
keep-last deduplication of any concatenation to its left: the new input's row
wins. -/
lemma mem_dropDupKeepLast_append {δ : Type} [DecidableEq δ] {r : Row δ} {l₂ : List (Row δ)}
    (hr : r ∈ l₂) (hnd : (dates l₂).Nodup) :
    ∀ l₁ : List (Row δ), r ∈ dropDupKeepLast (l₁ ++ l₂)
  | [] => mem_dropDupKeepLast_of_nodup hr hnd
  | a :: t => by
      rw [List.cons_append, dropDupKeepLast]
      by_cases hd : a.date ∈ dates (t ++ l₂)
      · rw [if_pos hd]
        exact mem_dropDupKeepLast_append hr hnd t
      · rw [if_neg hd]
        exact List.mem_cons_of_mem _ (mem_dropDupKeepLast_append hr hnd t)

/-- Sorting by date yields a `dateLE`-sorted list. -/
lemma sortByDate_sorted (l : List (Row Nat)) : List.Sorted dateLE (sortByDate l) :=
  List.sorted_insertionSort dateLE l

/-- Sorting by date permutes the list. -/
lemma sortByDate_perm (l : List (Row Nat)) : (sortByDate l).Perm l :=
  List.perm_insertionSort dateLE l

/-- C1: every merge of cached rows with newly fetched rows yields strictly
increasing, unique dates — unconditionally — and whenever a row of the new
input (with its dates pairwise distinct) carries a date also present in the
cached input, the merged result contains that new row. -/
theorem mergeSeries_strict_dates_new_wins (cached newData : List (Row Nat)) :
    List.Pairwise (fun a b : Row Nat => a.date < b.date) (mergeSeries cached newData)
    ∧ (∀ r : Row Nat, (dates newData).Nodup → r ∈ newData →
        r.date ∈ dates cached → r ∈ mergeSeries cached newData) := by
  constructor
  · have hsorted : List.Sorted dateLE (mergeSeries cached newData) := sortByDate_sorted _
    have hperm : (mergeSeries cached newData).Perm (dropDupKeepLast (cached ++ newData)) :=
      sortByDate_perm _
    have hnodup : (dates (mergeSeries cached newData)).Nodup :=
      ((hperm.map Row.date).nodup_iff).mpr (nodup_dates_dropDupKeepLast _)
    have hne : List.Pairwise (fun a b : Row Nat => a.date ≠ b.date)
        (mergeSeries cached newData) := by
      rw [dates] at hnodup
      exact List.pairwise_map.mp hnodup
    exact (hsorted.and hne).imp (fun h => lt_of_le_of_ne h.1 h.2)
  · intro r hnd hrnew _hrcached
    exact (sortByDate_perm _).mem_iff.mpr
      (mem_dropDupKeepLast_append hrnew hnd cached)

/-- Witness for C1: the cached series holds dates 1 and 2, the fetch returns
new rows for dates 2 and 3; the merge is strictly increasing and keeps the
freshly fetched row for date 2. -/
theorem mergeSeries_strict_dates_new_wins_w :
    List.Pairwise (fun a b : Row Nat => a.date < b.date)
      (mergeSeries [⟨1, 10, 11, 9, 10, 100⟩, ⟨2, 10, 12, 9, 11, 150⟩]
        [⟨2, 20, 22, 19, 21, 250⟩, ⟨3, 21, 23, 20, 22, 300⟩])
    ∧ (⟨2, 20, 22, 19, 21, 250⟩ : Row Nat) ∈
        mergeSeries [⟨1, 10, 11, 9, 10, 100⟩, ⟨2, 10, 12, 9, 11, 150⟩]
          [⟨2, 20, 22, 19, 21, 250⟩, ⟨3, 21, 23, 20, 22, 300⟩] :=
  ⟨(mergeSeries_strict_dates_new_wins
      [⟨1, 10, 11, 9, 10, 100⟩, ⟨2, 10, 12, 9, 11, 150⟩]
      [⟨2, 20, 22, 19, 21, 250⟩, ⟨3, 21, 23, 20, 22, 300⟩]).1,
    (mergeSeries_strict_dates_new_wins
      [⟨1, 10, 11, 9, 10, 100⟩, ⟨2, 10, 12, 9, 11, 150⟩]
      [⟨2, 20, 22, 19, 21, 250⟩, ⟨3, 21, 23, 20, 22, 300⟩]).2
      ⟨2, 20, 22, 19, 21, 250⟩ (by decide) (by decide) (by decide)⟩

end Series

namespace SaveStocks

open Series

/-- C2: when the cached series is non-empty and its last (covered end) date is
at or past the requested end date, the coordinator makes no fetch call and
returns the cached series unchanged, writing nothing. -/
theorem download_none_mode (rows : List (Row Nat)) (lastRow : Row Nat)
    (listingDate latestDate : Nat) (fetch : Nat → Nat → List (Row Nat))
    (hlast : rows.getLast? = some lastRow) (hfresh : latestDate ≤ lastRow.date) :
    download_stock_data_with_cache (CacheState.valid rows) listingDate latestDate fetch
      = { series := rows, fetchCalls := [], saved := none } := by
  simp [download_stock_data_with_cache, hlast, hfresh]

/-- Witness for C2: a cache ending at date 5 with requested end 5 is returned
unchanged with no fetch. -/
theorem download_none_mode_w :
    download_stock_data_with_cache (CacheState.valid [⟨5, 1, 2, 1, 2, 10⟩]) 0 5
        (fun a b => [⟨a + b, 9, 9, 9, 9, 9⟩])
      = { series := [⟨5, 1, 2, 1, 2, 10⟩], fetchCalls := [], saved := none } :=
  download_none_mode [⟨5, 1, 2, 1, 2, 10⟩] ⟨5, 1, 2, 1, 2, 10⟩ 0 5
    (fun a b => [⟨a + b, 9, 9, 9, 9, 9⟩]) (by decide) (by decide)

/-- Counterexample to C3 as stated: with a cache ending at date 5 and
requested end 7, the coordinator issues a fetch whose start date is 5 itself,
so the fetched range does not start strictly after the cached end. -/
theorem download_incremental_start_not_after :
    ¬ (∀ c ∈ (download_stock_data_with_cache (CacheState.valid [⟨5, 1, 1, 1, 1, 1⟩]) 0 7
          (fun _ _ => [])).fetchCalls, 5 < c.1) := by
  decide

/-- C3 amended: with a non-empty cache whose last date precedes the requested
end, the coordinator fetches exactly one sub-range, starting at the cached end
date itself (inclusive fetch, with the overlap dropped by the keep-last
deduplication) and ending at the requested end. -/
theorem download_incremental_fetch_range (rows : List (Row Nat)) (lastRow : Row Nat)
    (listingDate latestDate : Nat) (fetch : Nat → Nat → List (Row Nat))
    (hlast : rows.getLast? = some lastRow) (hstale : lastRow.date < latestDate) :
    (download_stock_data_with_cache (CacheState.valid rows) listingDate latestDate
        fetch).fetchCalls
      = [(lastRow.date, latestDate)] := by
  have hnot : ¬ latestDate ≤ lastRow.date := not_le.mpr hstale
  simp [download_stock_data_with_cache, hlast, hnot]

/-- Witness for the amended C3: cached end 5, requested end 7, the single
fetch call covers exactly the range from 5 to 7. -/
theorem download_incremental_fetch_range_w :
    (download_stock_data_with_cache (CacheState.valid [⟨5, 1, 1, 1, 1, 1⟩]) 0 7
        (fun _ _ => [])).fetchCalls = [(5, 7)] :=
  download_incremental_fetch_range [⟨5, 1, 1, 1, 1, 1⟩] ⟨5, 1, 1, 1, 1, 1⟩ 0 7
    (fun _ _ => []) (by decide) (by decide)

/-- C7: a cache file that fails to read or parse is treated exactly like an
absent cache — the coordinator proceeds in full mode, fetching the entire
range from the listing date to the requested end and returning the fetched
series — and the parse failure is not surfaced as an error. -/
theorem download_corrupt_cache_full_mode (listingDate latestDate : Nat)
    (fetch : Nat → Nat → List (Row Nat)) :
    download_stock_data_with_cache CacheState.corrupt listingDate latestDate fetch
      = download_stock_data_with_cache CacheState.absent listingDate latestDate fetch
    ∧ (download_stock_data_with_cache CacheState.corrupt listingDate latestDate
        fetch).fetchCalls = [(listingDate, latestDate)]
    ∧ (download_stock_data_with_cache CacheState.corrupt listingDate latestDate
        fetch).series = fetch listingDate latestDate :=
  ⟨rfl, rfl, rfl⟩

end SaveStocks

namespace JQFetcher

/-- The retry loop never runs more attempts than it was allowed. -/
lemma fetchAttempts_attemptsMade_le {α : Type} (att : Nat → Option α) (retryDelay : Nat) :
    ∀ remaining i : Nat, (fetchAttempts att retryDelay i remaining).attemptsMade ≤ remaining
  | 0, _ => Nat.le_refl 0
  | remaining + 1, i => by
      rw [fetchAttempts]
      cases att i with
      | some d => exact Nat.succ_le_succ (Nat.zero_le _)
      | none =>
          by_cases h : remaining = 0
          · rw [if_pos h]
            exact Nat.succ_le_succ (Nat.zero_le _)
          · rw [if_neg h]
            exact Nat.succ_le_succ (fetchAttempts_attemptsMade_le att retryDelay remaining (i + 1))

/-- When every allowed attempt fails, the retry loop runs them all, sleeps the
fixed delay between consecutive attempts, re-raises, and returns no data. -/
lemma fetchAttempts_all_fail {α : Type} (att : Nat → Option α) (retryDelay : Nat) :
    ∀ remaining i : Nat, 0 < remaining → (∀ j, j < remaining → att (i + j) = none) →
    fetchAttempts att retryDelay i remaining
      = ⟨none, true, remaining, List.replicate (remaining - 1) retryDelay⟩
  | 0, _, h0, _ => absurd h0 (by simp)
  | remaining + 1, i, _, hfail => by
      rw [fetchAttempts]
      have hi : att i = none := by simpa using hfail 0 (Nat.succ_pos _)
      rw [hi]
      by_cases h : remaining = 0
      · subst h
        simp
      · rw [if_neg h]
        have hrec := fetchAttempts_all_fail att retryDelay remaining (i + 1)
          (Nat.pos_of_ne_zero h)
          (fun j hj => by
            have := hfail (j + 1) (Nat.succ_lt_succ hj)
            simpa [Nat.add_assoc, Nat.add_comm 1 j] using this)
        rw [hrec]
        obtain ⟨r, rfl⟩ := Nat.exists_eq_succ_of_ne_zero h
        simp [List.replicate_succ]

end JQFetcher

namespace StockCache

open Series JQFetcher

/-- When every allowed attempt fails, `_fetch_stock_data` produces no data. -/
lemma fetchStockData_all_fail (maxRetry retryDelay startDate endDate : Nat)
    (att : Nat → Option (List (Row Nat)))
    (hmr : 0 < maxRetry) (hfail : ∀ j, j < maxRetry → att j = none) :
    fetchStockData maxRetry retryDelay startDate endDate att = none := by
  unfold fetchStockData get_stock_data
  rw [fetchAttempts_all_fail att retryDelay maxRetry 0 hmr (fun j hj => by simpa using hfail j hj)]
  by_cases h : validate_date_range startDate endDate = true
  · rw [if_pos h]
  · rw [if_neg h]

/-- When the fetch yields nothing, a single-stock download in any mode that
needs data reports failure and leaves the cache files untouched. -/
lemma download_single_stock_fetch_exhausted (maxRetry retryDelay : Nat)
    (att : Nat → Option (List (Row Nat))) (mode : Mode)
    (cached : Option (List (Row Nat))) (startDate endDate incStart incEnd : Nat)
    (s : String) (hmr : 0 < maxRetry) (hmode : mode ≠ Mode.upToDate)
    (hfail : ∀ j, j < maxRetry → att j = none) :
    ∀ fs : CacheFiles,
      download_single_stock maxRetry retryDelay att mode cached
        startDate endDate incStart incEnd s fs = (false, fs) := by
  intro fs
  cases mode with
  | upToDate => exact absurd rfl hmode
  | full =>
      unfold download_single_stock
      rw [fetchStockData_all_fail maxRetry retryDelay startDate endDate att hmr hfail]
  | incremental =>
      unfold download_single_stock
      rw [fetchStockData_all_fail maxRetry retryDelay incStart incEnd att hmr hfail]
      cases cached <;> rfl

/-- The driver processes a concatenation by processing the first part, then
the second on the state the first part left behind. -/
lemma download_all_stocks_append (step : String → CacheFiles → Bool × CacheFiles)
    (l₁ l₂ : List String) (fs : CacheFiles) :
    download_all_stocks step (l₁ ++ l₂) fs
      = ((download_all_stocks step l₁ fs).1
            ++ (download_all_stocks step l₂ (download_all_stocks step l₁ fs).2).1,
          (download_all_stocks step l₂ (download_all_stocks step l₁ fs).2).2) := by
  induction l₁ generalizing fs with
  | nil => rfl
  | cons a t ih =>
      rw [List.cons_append]
      rw [download_all_stocks, download_all_stocks, ih]
      simp

end StockCache

namespace StockCache

open Series JQFetcher

/-- C4: when an identifier's fetch raises on every attempt, the fetcher runs
exactly the configured number of attempts (and in general never more than
that), sleeping the fixed delay between consecutive attempts, and re-raises;
the single-stock download reports failure leaving the cache files untouched;
and the batch driver records the identifier as failed and continues with the
remaining identifiers on an unchanged file state. -/
theorem fetch_exhausted_failure_isolated (maxRetry retryDelay : Nat)
    (att : String → Nat → Option (List (Row Nat))) (mode : String → Mode)
    (cached : String → Option (List (Row Nat)))
    (startDate endDate incStart incEnd : String → Nat)
    (s : String) (pre post : List String) (fs₀ : CacheFiles)
    (step : String → CacheFiles → Bool × CacheFiles)
    (hstep : ∀ s' fs, step s' fs
      = download_single_stock maxRetry retryDelay (att s') (mode s') (cached s')
          (startDate s') (endDate s') (incStart s') (incEnd s') s' fs)
    (hmr : 0 < maxRetry) (hmode : mode s ≠ Mode.upToDate)
    (hfail : ∀ j, j < maxRetry → att s j = none) :
    ((get_stock_data maxRetry retryDelay (att s)).raised = true
      ∧ (get_stock_data maxRetry retryDelay (att s)).attemptsMade = maxRetry
      ∧ (get_stock_data maxRetry retryDelay (att s)).sleeps
          = List.replicate (maxRetry - 1) retryDelay)
    ∧ (∀ att' : Nat → Option (List (Row Nat)),
        (get_stock_data maxRetry retryDelay att').attemptsMade ≤ maxRetry)
    ∧ (∀ fs : CacheFiles,
        download_single_stock maxRetry retryDelay (att s) (mode s) (cached s)
          (startDate s) (endDate s) (incStart s) (incEnd s) s fs = (false, fs))
    ∧ download_all_stocks step (pre ++ s :: post) fs₀
        = ((download_all_stocks step pre fs₀).1
              ++ (s, false)
                :: (download_all_stocks step post
                    (download_all_stocks step pre fs₀).2).1,
            (download_all_stocks step post
              (download_all_stocks step pre fs₀).2).2) := by
  have htr : get_stock_data maxRetry retryDelay (att s)
      = ⟨none, true, maxRetry, List.replicate (maxRetry - 1) retryDelay⟩ := by
    unfold get_stock_data
    exact fetchAttempts_all_fail (att s) retryDelay maxRetry 0 hmr
      (fun j hj => by simpa using hfail j hj)
  have hsingle := download_single_stock_fetch_exhausted maxRetry retryDelay (att s)
    (mode s) (cached s) (startDate s) (endDate s) (incStart s) (incEnd s) s
    hmr hmode hfail
  refine ⟨⟨by rw [htr], by rw [htr], by rw [htr]⟩,
    fun att' => fetchAttempts_attemptsMade_le att' retryDelay maxRetry 0,
    hsingle, ?_⟩
  have hs : ∀ fs, step s fs = (false, fs) :=
    fun fs => (hstep s fs).trans (hsingle fs)
  rw [download_all_stocks_append]
  rw [download_all_stocks, hs]

end StockCache

namespace StockCache

open Series JQFetcher

/-- Witness for C4: three identifiers with retry limit 3; the middle one's
fetch always raises, so it is recorded as failed and writes nothing, while its
neighbors succeed and the run continues past the failure. -/
theorem fetch_exhausted_failure_isolated_w :
    download_all_stocks
        (fun s' fs => download_single_stock 3 5
          (fun _ => if s' = "X" then none else some [⟨1, 1, 1, 1, 1, 1⟩])
          Mode.full none 0 10 0 10 s' fs)
        ["A", "X", "B"] []
      = ([("A", true), ("X", false), ("B", true)],
          [("A", [⟨1, 1, 1, 1, 1, 1⟩]), ("B", [⟨1, 1, 1, 1, 1, 1⟩])]) := by
  have h := (fetch_exhausted_failure_isolated 3 5
      (fun s' _ => if s' = "X" then none else some [⟨1, 1, 1, 1, 1, 1⟩])
      (fun _ => Mode.full) (fun _ => none) (fun _ => 0) (fun _ => 10) (fun _ => 0)
      (fun _ => 10) "X" ["A"] ["B"] []
      (fun s' fs => download_single_stock 3 5
        (fun _ => if s' = "X" then none else some [⟨1, 1, 1, 1, 1, 1⟩])
        Mode.full none 0 10 0 10 s' fs)
      (fun _ _ => rfl) (by decide) (by decide)
      (fun _ _ => rfl)).2.2.2
  exact h.trans (by decide)

end StockCache

namespace Storage

open Series

/-- Every digit produced by the fueled digit computation is below 10. -/
lemma digitsRevAux_lt (fuel : Nat) : ∀ n : Nat, ∀ d ∈ digitsRevAux fuel n, d < 10 := by
  induction fuel with
  | zero =>
      intro n d hd
      cases n with
      | zero => simp [digitsRevAux] at hd
      | succ m => simp [digitsRevAux] at hd
  | succ f ih =>
      intro n d hd
      cases n with
      | zero => simp [digitsRevAux] at hd
      | succ m =>
          rw [digitsRevAux] at hd
          rcases List.mem_cons.mp hd with h' | h'
          · exact h' ▸ Nat.mod_lt _ (by norm_num)
          · exact ih _ d h'

/-- The fueled digit computation is correct once the fuel covers the input. -/
lemma ofDigits_digitsRevAux (fuel : Nat) :
    ∀ n : Nat, n ≤ fuel → Nat.ofDigits 10 (digitsRevAux fuel n) = n := by
  induction fuel with
  | zero =>
      intro n hn
      have : n = 0 := Nat.le_zero.mp hn
      subst this
      simp [digitsRevAux, Nat.ofDigits_nil]
  | succ f ih =>
      intro n hn
      cases n with
      | zero => simp [digitsRevAux, Nat.ofDigits_nil]
      | succ m =>
          rw [digitsRevAux, Nat.ofDigits_cons]
          have hlt : (m + 1) / 10 < m + 1 := Nat.div_lt_self (Nat.succ_pos m) (by norm_num)
          have hle : (m + 1) / 10 ≤ f := by omega
          rw [ih _ hle]
          omega

/-- Recomposing the little-endian digits of `n` gives back `n`. -/
lemma ofDigits_digitsRev (n : Nat) : Nat.ofDigits 10 (digitsRev n) = n :=
  ofDigits_digitsRevAux n n (Nat.le_refl n)

/-- Digits of `digitsRev` are below 10. -/
lemma digitsRev_lt (n : Nat) : ∀ d ∈ digitsRev n, d < 10 :=
  digitsRevAux_lt n n

/-- A nonzero number has at least one digit. -/
lemma digitsRev_ne_nil {n : Nat} (h : n ≠ 0) : digitsRev n ≠ [] := by
  cases n with
  | zero => exact absurd rfl h
  | succ m => simp [digitsRev, digitsRevAux]

/-- Rendering a digit always yields a digit character. -/
lemma isDigitCh_digitChar (d : Nat) : isDigitCh (digitChar d) = true := by
  unfold digitChar
  split <;> decide

/-- Reading back a rendered digit below 10 recovers it. -/
lemma charDigit_digitChar {d : Nat} (h : d < 10) : charDigit (digitChar d) = d := by
  interval_cases d <;> decide

/-- Digit characters are none of the three separator characters. -/
lemma ne_of_isDigitCh {c : Char} (h : isDigitCh c = true) :
    c ≠ '-' ∧ c ≠ ',' ∧ c ≠ '\x0a' := by
  refine ⟨?_, ?_, ?_⟩ <;> (rintro rfl; exact absurd h (by decide))

/-- All characters of a rendered natural number are digits. -/
lemma renderNat_all_digits (n : Nat) : ∀ c ∈ renderNat n, isDigitCh c = true := by
  intro c hc
  unfold renderNat at hc
  by_cases h : n = 0
  · rw [if_pos h] at hc
    simp at hc
    exact hc ▸ (by decide)
  · rw [if_neg h] at hc
    rcases List.mem_map.mp hc with ⟨d, _, rfl⟩
    exact isDigitCh_digitChar d

/-- All characters of a padded rendered natural number are digits. -/
lemma renderNatPad_all_digits (w n : Nat) : ∀ c ∈ renderNatPad w n, isDigitCh c = true := by
  intro c hc
  rcases List.mem_append.mp hc with h | h
  · exact (List.eq_of_mem_replicate h) ▸ (by decide)
  · exact renderNat_all_digits n c h

/-- A rendered natural number is never the empty string. -/
lemma renderNat_ne_nil (n : Nat) : renderNat n ≠ [] := by
  unfold renderNat
  by_cases h : n = 0
  · rw [if_pos h]
    simp
  · rw [if_neg h]
    simp only [ne_eq, List.map_eq_nil_iff, List.reverse_eq_nil_iff]
    exact digitsRev_ne_nil h

/-- A string of zero digits denotes zero. -/
lemma ofDigits_replicate_zero (k : Nat) : Nat.ofDigits 10 (List.replicate k 0) = 0 := by
  induction k with
  | zero => simp [Nat.ofDigits_nil]
  | succ j ih => simp [List.replicate_succ, Nat.ofDigits_cons, ih]

/-- Trailing zeros contribute nothing to a little-endian digit expansion. -/
lemma ofDigits_append_replicate_zero (l : List Nat) (k : Nat) :
    Nat.ofDigits 10 (l ++ List.replicate k 0) = Nat.ofDigits 10 l := by
  rw [Nat.ofDigits_append, ofDigits_replicate_zero]
  simp

/-- Parsing a padded decimal rendering recovers the number. -/
lemma parseNat_renderNatPad (w n : Nat) : parseNat (renderNatPad w n) = some n := by
  unfold parseNat
  have hne : renderNatPad w n ≠ [] := by
    unfold renderNatPad
    intro hcontra
    exact renderNat_ne_nil n (List.append_eq_nil.mp hcontra).2
  have hall : (renderNatPad w n).all isDigitCh = true :=
    List.all_eq_true.mpr (renderNatPad_all_digits w n)
  rw [if_pos ⟨hne, hall⟩]
  congr 1
  unfold renderNatPad
  rw [List.map_append, List.reverse_append]
  have hrep : (List.replicate (w - (renderNat n).length) '0').map charDigit
      = List.replicate (w - (renderNat n).length) 0 := by
    rw [List.map_replicate]
    rfl
  rw [hrep, List.reverse_replicate]
  have hmap : (renderNat n).map charDigit
      = if n = 0 then [0] else digitsRev n |>.reverse := by
    unfold renderNat
    by_cases h : n = 0
    · rw [if_pos h, if_pos h]
      rfl
    · rw [if_neg h, if_neg h, List.map_map]
      have : ∀ d ∈ (digitsRev n).reverse, (charDigit ∘ digitChar) d = id d := by
        intro d hd
        exact charDigit_digitChar (digitsRev_lt n d (List.mem_reverse.mp hd))
      rw [List.map_congr_left this, List.map_id]
  rw [hmap]
  by_cases h : n = 0
  · rw [if_pos h]
    subst h
    simp [Nat.ofDigits_cons, Nat.ofDigits_nil, ofDigits_replicate_zero]
  · rw [if_neg h, List.reverse_reverse]
    rw [ofDigits_append_replicate_zero]
    exact ofDigits_digitsRev n

/-- Parsing an unpadded decimal rendering recovers the number. -/
lemma parseNat_renderNat (n : Nat) : parseNat (renderNat n) = some n := by
  have h := parseNat_renderNatPad (0 : Nat) n
  simpa [renderNatPad] using h

/-- Parsing a rendered integer cell recovers the integer. -/
lemma parseInt_renderInt (i : Int) : parseInt (renderInt i) = some i := by
  unfold renderInt
  by_cases h : i < 0
  · rw [if_pos h]
    rw [parseInt, if_pos rfl, parseNat_renderNat]
    show some (-(i.natAbs : Int)) = some i
    congr 1
    omega
  · rw [if_neg h]
    obtain ⟨c, rest, hcr⟩ : ∃ c rest, renderNat i.natAbs = c :: rest := by
      cases h' : renderNat i.natAbs with
      | nil => exact absurd h' (renderNat_ne_nil _)
      | cons c rest => exact ⟨c, rest, rfl⟩
    have hc : isDigitCh c = true :=
      renderNat_all_digits _ c (hcr ▸ List.mem_cons_self c rest)
    have hcne : c ≠ '-' := (ne_of_isDigitCh hc).1
    rw [hcr, parseInt, if_neg hcne, ← hcr, parseNat_renderNat]
    show some ((i.natAbs : Int)) = some i
    congr 1
    omega

/-- Explicit form of a three-cell intercalation. -/
lemma intercalate_three (x : Char) (a b c : List Char) :
    List.intercalate [x] [a, b, c] = a ++ x :: (b ++ x :: c) := by
  simp [List.intercalate, List.intersperse]

/-- Explicit form of a six-cell intercalation. -/
lemma intercalate_six (x : Char) (a b c d e f : List Char) :
    List.intercalate [x] [a, b, c, d, e, f]
      = a ++ x :: (b ++ x :: (c ++ x :: (d ++ x :: (e ++ x :: f)))) := by
  simp [List.intercalate, List.intersperse]

/-- Characters of a rendered date are digits or the date separator. -/
lemma mem_renderDate {c : Char} {d : Date} (hc : c ∈ renderDate d) :
    isDigitCh c = true ∨ c = '-' := by
  unfold renderDate at hc
  rw [intercalate_three] at hc
  rcases List.mem_append.mp hc with h | h
  · exact Or.inl (renderNatPad_all_digits _ _ c h)
  · rcases List.mem_cons.mp h with h' | h'
    · exact Or.inr h'
    · rcases List.mem_append.mp h' with h'' | h''
      · exact Or.inl (renderNatPad_all_digits _ _ c h'')
      · rcases List.mem_cons.mp h'' with h₃ | h₃
        · exact Or.inr h₃
        · exact Or.inl (renderNatPad_all_digits _ _ c h₃)

/-- Characters of a rendered integer are digits or the minus sign. -/
lemma mem_renderInt {c : Char} {i : Int} (hc : c ∈ renderInt i) :
    isDigitCh c = true ∨ c = '-' := by
  unfold renderInt at hc
  by_cases h : i < 0
  · rw [if_pos h] at hc
    rcases List.mem_cons.mp hc with h' | h'
    · exact Or.inr h'
    · exact Or.inl (renderNat_all_digits _ c h')
  · rw [if_neg h] at hc
    exact Or.inl (renderNat_all_digits _ c hc)

/-- The date separator never occurs inside a padded number cell. -/
lemma dash_not_mem_renderNatPad (w n : Nat) : '-' ∉ renderNatPad w n := fun hm =>
  (ne_of_isDigitCh (renderNatPad_all_digits w n '-' hm)).1 rfl

/-- The cell separator never occurs inside a rendered date. -/
lemma comma_not_mem_renderDate (d : Date) : ',' ∉ renderDate d := fun hm => by
  rcases mem_renderDate hm with h | h
  · exact (ne_of_isDigitCh h).2.1 rfl
  · exact absurd h (by decide)

/-- The cell separator never occurs inside a rendered integer. -/
lemma comma_not_mem_renderInt (i : Int) : ',' ∉ renderInt i := fun hm => by
  rcases mem_renderInt hm with h | h
  · exact (ne_of_isDigitCh h).2.1 rfl
  · exact absurd h (by decide)

/-- The line separator never occurs inside a rendered date. -/
lemma newline_not_mem_renderDate (d : Date) : '\x0a' ∉ renderDate d := fun hm => by
  rcases mem_renderDate hm with h | h
  · exact (ne_of_isDigitCh h).2.2 rfl
  · exact absurd h (by decide)

/-- The line separator never occurs inside a rendered integer. -/
lemma newline_not_mem_renderInt (i : Int) : '\x0a' ∉ renderInt i := fun hm => by
  rcases mem_renderInt hm with h | h
  · exact (ne_of_isDigitCh h).2.2 rfl
  · exact absurd h (by decide)

/-- Parsing a rendered date cell recovers the date. -/
lemma parseDate_renderDate (d : Date) : parseDate (renderDate d) = some d := by
  unfold parseDate renderDate
  have hsplit := List.splitOn_intercalate
    [renderNatPad 4 d.year, renderNatPad 2 d.month, renderNatPad 2 d.day] '-'
    (by
      intro l hl
      simp only [List.mem_cons, List.not_mem_nil, or_false] at hl
      rcases hl with rfl | rfl | rfl <;> exact dash_not_mem_renderNatPad _ _)
    (by simp)
  rw [hsplit]
  simp [parseNat_renderNatPad]

/-- Parsing a rendered CSV line recovers the row. -/
lemma parseRow_renderRow (r : Row Date) : parseRow (renderRow r) = some r := by
  unfold parseRow renderRow
  have hsplit := List.splitOn_intercalate
    [renderDate r.date, renderInt r.open_, renderInt r.high, renderInt r.low,
      renderInt r.close, renderInt r.volume] ','
    (by
      intro l hl
      simp only [List.mem_cons, List.not_mem_nil, or_false] at hl
      rcases hl with rfl | rfl | rfl | rfl | rfl | rfl
      · exact comma_not_mem_renderDate _
      all_goals exact comma_not_mem_renderInt _)
    (by simp)
  rw [hsplit]
  simp [parseDate_renderDate, parseInt_renderInt]

/-- The line separator never occurs inside a rendered CSV line. -/
lemma newline_not_mem_renderRow (r : Row Date) : '\x0a' ∉ renderRow r := by
  unfold renderRow
  rw [intercalate_six]
  intro hm
  have hd := newline_not_mem_renderDate r.date
  have ho := newline_not_mem_renderInt r.open_
  have hh := newline_not_mem_renderInt r.high
  have hl := newline_not_mem_renderInt r.low
  have hc := newline_not_mem_renderInt r.close
  have hv := newline_not_mem_renderInt r.volume
  simp only [List.mem_append, List.mem_cons] at hm
  rcases hm with h | h | h | h | h | h | h | h | h | h | h
  · exact hd h
  · exact absurd h (by decide)
  · exact ho h
  · exact absurd h (by decide)
  · exact hh h
  · exact absurd h (by decide)
  · exact hl h
  · exact absurd h (by decide)
  · exact hc h
  · exact absurd h (by decide)
  · exact hv h

/-- Parsing the rendered lines one by one recovers the rows. -/
lemma parseLines_map (rows : List (Row Date)) :
    parseLines (rows.map renderRow) = some rows := by
  induction rows with
  | nil => rfl
  | cons r t ih => simp [parseLines, parseRow_renderRow, ih]

/-- Parsing a rendered CSV file recovers the series. -/
lemma parseCSV_renderCSV (rows : List (Row Date)) : parseCSV (renderCSV rows) = some rows := by
  unfold parseCSV renderCSV
  have hsplit := List.splitOn_intercalate (csvHeader :: rows.map renderRow) '\x0a'
    (by
      intro l hl
      rcases List.mem_cons.mp hl with rfl | hl'
      · decide
      · rcases List.mem_map.mp hl' with ⟨r, _, rfl⟩
        exact newline_not_mem_renderRow r)
    (by simp)
  rw [hsplit]
  show (if csvHeader = csvHeader then parseLines (rows.map renderRow) else none) = some rows
  rw [if_pos rfl]
  exact parseLines_map rows

/-- Rebuilding rows from their projected columns recovers the series. -/
lemma fromColumnar_toColumnar (rows : List (Row Date)) :
    fromColumnar (toColumnar rows) = some rows := by
  unfold fromColumnar toColumnar
  induction rows with
  | nil => rfl
  | cons r t ih => simp [zipColumns, ih]

/-- Reading back a freshly written file yields what was written. -/
lemma lookupFile_writeFile (p : String) (v : FileData) (files : List (String × FileData)) :
    lookupFile p (writeFile p v files) = some v := by
  induction files with
  | nil => simp [writeFile, lookupFile]
  | cons qw rest ih =>
      obtain ⟨q, w⟩ := qw
      by_cases h : q = p
      · simp [writeFile, lookupFile, h]
      · simp [writeFile, lookupFile, h, ih]

/-- The resolved path does not depend on the file-system state. -/
lemma get_file_path_fst (sm : StorageManager) (code : String) (y : Option String)
    (fs fs' : FSState) :
    (get_file_path sm code y fs).1 = (get_file_path sm code y fs').1 := by
  unfold get_file_path
  cases y with
  | none => rfl
  | some v => by_cases h : v ≠ "" <;> simp [h]

/-- Resolving a path never changes the files, only the directories. -/
lemma get_file_path_files (sm : StorageManager) (code : String) (y : Option String)
    (fs : FSState) : (get_file_path sm code y fs).2.files = fs.files := by
  unfold get_file_path makedirs
  cases y with
  | none => rfl
  | some v => by_cases h : v ≠ "" <;> simp [h]

/-- Saving in CSV format with non-empty data succeeds and leaves the encoded
file at the resolved path. -/
lemma save_data_csv (base comp code : String) (y : Option String) (fs : FSState)
    (rows : List (Row Date)) (hne : rows ≠ []) :
    save_data ⟨base, "csv", comp⟩ rows code y fs
      = some ((get_file_path ⟨base, "csv", comp⟩ code y fs).1,
          { (get_file_path ⟨base, "csv", comp⟩ code y fs).2 with
              files := writeFile (get_file_path ⟨base, "csv", comp⟩ code y fs).1
                (FileData.csvFile (renderCSV rows))
                (get_file_path ⟨base, "csv", comp⟩ code y fs).2.files }) := by
  unfold save_data
  rw [if_neg hne]
  have henc : encodeData ⟨base, "csv", comp⟩ rows
      = some (FileData.csvFile (renderCSV rows)) := by
    simp [encodeData]
  rw [henc]

/-- Saving in Parquet format with non-empty data succeeds and leaves the
encoded file at the resolved path. -/
lemma save_data_parquet (base comp code : String) (y : Option String) (fs : FSState)
    (rows : List (Row Date)) (hne : rows ≠ []) :
    save_data ⟨base, "parquet", comp⟩ rows code y fs
      = some ((get_file_path ⟨base, "parquet", comp⟩ code y fs).1,
          { (get_file_path ⟨base, "parquet", comp⟩ code y fs).2 with
              files := writeFile (get_file_path ⟨base, "parquet", comp⟩ code y fs).1
                (FileData.parquetFile (toColumnar rows))
                (get_file_path ⟨base, "parquet", comp⟩ code y fs).2.files }) := by
  unfold save_data
  rw [if_neg hne]
  have henc : encodeData ⟨base, "parquet", comp⟩ rows
      = some (FileData.parquetFile (toColumnar rows)) := by
    simp [encodeData]
  rw [henc]

/-- Loading resolves the path on the current state and looks the file up
there. -/
lemma load_data_eq (sm : StorageManager) (code : String) (y : Option String)
    (fs : FSState) :
    load_data sm code y fs
      = (match lookupFile (get_file_path sm code y fs).1 (get_file_path sm code y fs).2.files
          with
          | none => none
          | some fd => decodeData sm fd,
          (get_file_path sm code y fs).2) := by
  unfold load_data
  split <;> simp_all

/-- Loading from the state produced by writing a file at the resolved path
decodes exactly that file. -/
lemma load_after_write (sm : StorageManager) (code : String) (y : Option String)
    (fs : FSState) (fd : FileData) :
    (load_data sm code y
        { (get_file_path sm code y fs).2 with
            files := writeFile (get_file_path sm code y fs).1 fd
              (get_file_path sm code y fs).2.files }).1
      = decodeData sm fd := by
  rw [load_data_eq]
  simp only [get_file_path_files, get_file_path_fst sm code y _ fs]
  simp [lookupFile_writeFile]

/-- C5: for every non-empty series, saving and then loading reproduces the
series exactly in both supported formats (plain delimited text and columnar),
dates round-tripping losslessly through their serialized form. -/
theorem save_load_roundtrip (base comp code : String) (y : Option String)
    (fs : FSState) (rows : List (Row Date)) (hne : rows ≠ []) :
    ((save_data ⟨base, "csv", comp⟩ rows code y fs).map
        (fun pf => (load_data ⟨base, "csv", comp⟩ code y pf.2).1)) = some (some rows)
    ∧ ((save_data ⟨base, "parquet", comp⟩ rows code y fs).map
        (fun pf => (load_data ⟨base, "parquet", comp⟩ code y pf.2).1))
      = some (some rows) := by
  constructor
  · rw [save_data_csv base comp code y fs rows hne]
    simp only [Option.map_some']
    rw [load_after_write]
    simp [decodeData, parseCSV_renderCSV]
  · rw [save_data_parquet base comp code y fs rows hne]
    simp only [Option.map_some']
    rw [load_after_write]
    simp [decodeData, fromColumnar_toColumnar]

/-- Witness for C5: a one-row series dated 2024-01-02 survives the save/load
round trip in both formats. -/
theorem save_load_roundtrip_w :
    ((save_data ⟨"./data", "csv", "snappy"⟩ [⟨⟨2024, 1, 2⟩, 10, 11, 9, 10, 100⟩]
        "601888.XSHG" (some "2024") ⟨[], []⟩).map
      (fun pf => (load_data ⟨"./data", "csv", "snappy"⟩ "601888.XSHG" (some "2024") pf.2).1))
      = some (some [⟨⟨2024, 1, 2⟩, 10, 11, 9, 10, 100⟩])
    ∧ ((save_data ⟨"./data", "parquet", "snappy"⟩ [⟨⟨2024, 1, 2⟩, 10, 11, 9, 10, 100⟩]
        "601888.XSHG" (some "2024") ⟨[], []⟩).map
      (fun pf => (load_data ⟨"./data", "parquet", "snappy"⟩ "601888.XSHG" (some "2024") pf.2).1))
      = some (some [⟨⟨2024, 1, 2⟩, 10, 11, 9, 10, 100⟩]) :=
  save_load_roundtrip "./data" "snappy" "601888.XSHG" (some "2024") ⟨[], []⟩
    [⟨⟨2024, 1, 2⟩, 10, 11, 9, 10, 100⟩] (by decide)

/-- C10: every storage operation that resolves a file path — including the
read-only `load_data` (even when the file is absent) and `file_exists` —
creates the partition directory as a side effect when one is given. -/
theorem path_resolution_creates_partition_dir (sm : StorageManager) (code y : String)
    (fs : FSState) (hy : y ≠ "") :
    (sm.base_path ++ "/" ++ y) ∈ (get_file_path sm code (some y) fs).2.dirs
    ∧ (load_data sm code (some y) fs).2 = (get_file_path sm code (some y) fs).2
    ∧ (sm.base_path ++ "/" ++ y) ∈ (load_data sm code (some y) fs).2.dirs
    ∧ (file_exists sm code (some y) fs).2 = (get_file_path sm code (some y) fs).2
    ∧ (sm.base_path ++ "/" ++ y) ∈ (file_exists sm code (some y) fs).2.dirs := by
  have hdirs : (get_file_path sm code (some y) fs).2
      = makedirs (sm.base_path ++ "/" ++ y) fs := by
    simp [get_file_path, hy]
  have hmem : (sm.base_path ++ "/" ++ y)
      ∈ (makedirs (sm.base_path ++ "/" ++ y) fs).dirs := by
    by_cases h : (sm.base_path ++ "/" ++ y) ∈ fs.dirs <;> simp [makedirs, h]
  have hload : (load_data sm code (some y) fs).2 = (get_file_path sm code (some y) fs).2 := by
    rw [load_data_eq]
  have hex : (file_exists sm code (some y) fs).2 = (get_file_path sm code (some y) fs).2 := rfl
  refine ⟨?_, hload, ?_, hex, ?_⟩
  · rw [hdirs]
    exact hmem
  · rw [hload, hdirs]
    exact hmem
  · rw [hex, hdirs]
    exact hmem

/-- Witness for C10: with an empty file system (so the load returns nothing),
resolving, loading and existence-testing for partition `2024` all create the
`./data/2024` directory. -/
theorem path_resolution_creates_partition_dir_w :
    (("./data" : String) ++ "/" ++ "2024")
        ∈ (get_file_path ⟨"./data", "parquet", "snappy"⟩ "601888.XSHG" (some "2024")
            ⟨[], []⟩).2.dirs
    ∧ (load_data ⟨"./data", "parquet", "snappy"⟩ "601888.XSHG" (some "2024") ⟨[], []⟩).2
        = (get_file_path ⟨"./data", "parquet", "snappy"⟩ "601888.XSHG" (some "2024")
            ⟨[], []⟩).2
    ∧ (("./data" : String) ++ "/" ++ "2024")
        ∈ (load_data ⟨"./data", "parquet", "snappy"⟩ "601888.XSHG" (some "2024")
            ⟨[], []⟩).2.dirs
    ∧ (file_exists ⟨"./data", "parquet", "snappy"⟩ "601888.XSHG" (some "2024") ⟨[], []⟩).2
        = (get_file_path ⟨"./data", "parquet", "snappy"⟩ "601888.XSHG" (some "2024")
            ⟨[], []⟩).2
    ∧ (("./data" : String) ++ "/" ++ "2024")
        ∈ (file_exists ⟨"./data", "parquet", "snappy"⟩ "601888.XSHG" (some "2024")
            ⟨[], []⟩).2.dirs :=
  path_resolution_creates_partition_dir ⟨"./data", "parquet", "snappy"⟩ "601888.XSHG"
    "2024" ⟨[], []⟩ (by decide)

end Storage
